import Mathlib

/-!
Verification of the proxy-fleet client model of `src/src/signals/proxies.ts`
(metacubexd).  The TypeScript module is embedded shallowly: JavaScript
records become association lists observed only through lookup, the
reactive signals become an explicit `GlobalState` record, remote calls
become `Except`-valued inputs, and the unbounded selection-pointer walk
becomes a fuel-indexed loop returning `Option`.
-/

set_option maxHeartbeats 1000000

namespace Metacubexd

/-- Sentinel latency value.  Modelled from the spec: the repository's
`latencyQualityMap().NOT_CONNECTED` sentinel is defined outside `src/`;
the spec only requires a distinguished "not connected" value. -/

def NOT_CONNECTED : Nat := 0

/-- One latency measurement sample, `{time, delay}`. -/

structure Sample where
  time : String
  delay : Nat
deriving DecidableEq, Repr

/-- A fetched proxy record.  This covers both top-level `Proxy` values and
provider `ProxyNode` values; a field the engine did not supply is the
empty string / `none` / `[]`, matching how the TypeScript reads absent
fields (`all?.length`, `history?.at(-1)`, `extra?.[url]`, `now` empty). -/

structure Proxy where
  name : String
  type : String
  udp : Bool
  xudp : Bool
  tfo : Bool
  now : String
  all : Option (List String)
  history : List Sample
  extra : List (String × List Sample)
deriving DecidableEq, Repr

/-- A fetched provider record. -/

structure ProxyProvider where
  name : String
  vehicleType : String
  proxies : List Proxy
deriving DecidableEq, Repr

/-- JavaScript record lookup `m[k]`: the visible entry for the key. -/

def mapGet (m : List (String × α)) (k : String) : Option α :=
  (m.find? (fun e => e.1 == k)).map (fun e => e.2)

/-- JavaScript record assignment `m[k] = v`.  The maps built here are
observed only through `mapGet`, so prepending (which shadows any older
entry for `k`) is an exact model of overwriting. -/

def mapSet (m : List (String × α)) (k : String) (v : α) : List (String × α) :=
  (k, v) :: m

/-- JavaScript key-membership test `k in m`. -/

def keyIn (m : List (String × α)) (k : String) : Bool :=
  (mapGet m k).isSome

/-- Lines 82–86 of `getLatencyFromProxy`: the value produced when no
truthy delay was found in `extra[url]`. -/

def fallbackLatency (proxy : Proxy) (fallbackDefault : Bool) : Nat :=
  if !fallbackDefault then NOT_CONNECTED
  else
    match proxy.history.getLast? with
    | some s => s.delay
    | none => NOT_CONNECTED

/-- Embedding of `getLatencyFromProxy` (src/src/signals/proxies.ts,
lines 67–87).  `extra.at(-1)?.delay` is the last sample's delay; the
truthiness test `if (delay)` admits exactly the nonzero values. -/

def getLatencyFromProxy (proxy : Proxy) (url : String)
    (fallbackDefault : Bool := true) : Nat :=
  match mapGet proxy.extra url with
  | some extraSamples =>
    match extraSamples.getLast? with
    | some s =>
      if s.delay ≠ 0 then s.delay
      else fallbackLatency proxy fallbackDefault
    | none => fallbackLatency proxy fallbackDefault
  | none => fallbackLatency proxy fallbackDefault

/-- A node whose `extra` has a truthy measurement for the test URL. -/

def proxyWithExtra : Proxy :=
  { name := "A", type := "Vmess", udp := true, xudp := false, tfo := false
    now := "", all := none
    history := [⟨"t0", 7⟩]
    extra := [("http://test", [⟨"t1", 100⟩])] }

/-- A node whose `extra` measurement for the test URL has delay zero. -/

def proxyWithZeroExtra : Proxy :=
  { name := "B", type := "Vmess", udp := true, xudp := false, tfo := false
    now := "", all := none
    history := [⟨"t0", 7⟩]
    extra := [("http://test", [⟨"t1", 0⟩])] }

/-- The flattened per-node projection (`ProxyInfo` in the source, lines
22–34).  The `latency` field stores the node's `now` pointer — a name,
not a number — exactly as the source does. -/

structure ProxyInfo where
  name : String
  udp : Bool
  xudp : Bool
  tfo : Bool
  type : String
  latency : String
  latencyTestHistory : List Sample
  provider : String
deriving DecidableEq, Repr

/-- The node index, i.e. the `proxyNodeMap` signal's value. -/

abbrev NodeMap := List (String × ProxyInfo)

/-- One iteration decision of the `while` loop of `getNowProxyNodeName`
(lines 253–261): `none` when the loop stops at `node` (empty pointer,
self pointer, or index miss — all of which return `node.name`), and
`some next` when the walk continues at `next`. -/

def resolveLoopStep (m : NodeMap) (node : ProxyInfo) : Option ProxyInfo :=
  if node.latency == "" || node.latency == node.name then none
  else mapGet m node.latency

/-- The `while` loop of `getNowProxyNodeName`, indexed by fuel; `none`
means the loop did not finish within `fuel` iterations. -/

def resolveLoop (m : NodeMap) : Nat → ProxyInfo → Option String
  | 0, _ => none
  | fuel + 1, node =>
    match resolveLoopStep m node with
    | none => some node.name
    | some next => resolveLoop m fuel next

/-- Embedding of `getNowProxyNodeName` (lines 246–264).  The source is a
total function that may diverge on a cyclic index; here `none` marks
divergence within the given fuel. -/

def getNowProxyNodeName (m : NodeMap) (fuel : Nat) (name : String) :
    Option String :=
  match mapGet m name with
  | none => some name
  | some node => if name == "" then some name else resolveLoop m fuel node

/-- A one-node index whose node points at itself. -/

def selfLoopInfo : ProxyInfo :=
  { name := "Auto", udp := true, xudp := false, tfo := false
    type := "URLTest", latency := "Auto", latencyTestHistory := []
    provider := "" }

/-- A node whose pointer names an absent node. -/

def danglingInfo : ProxyInfo :=
  { name := "G", udp := true, xudp := false, tfo := false
    type := "Selector", latency := "Missing", latencyTestHistory := []
    provider := "" }

/-- The concrete index used by the resolver witnesses. -/

def resolveWitnessMap : NodeMap :=
  [("Auto", selfLoopInfo), ("G", danglingInfo)]

/-- The pointer chain extracted from repeatedly applying
`resolveLoopStep`, with an arbitrary fixed point once the walk stops. -/

def chainIter (m : NodeMap) (start : ProxyInfo) : Nat → ProxyInfo
  | 0 => start
  | i + 1 =>
    match resolveLoopStep m (chainIter m start i) with
    | some next => next
    | none => chainIter m start i

/-- A node paired with the provider tag attached during flattening: the
empty string for top-level proxies (the `provider = ''` destructuring
default of line 96) and the provider's name for provider nodes
(lines 142–145). -/

structure TaggedProxy where
  proxy : Proxy
  provider : String
deriving DecidableEq, Repr

/-- The four published signals (lines 56–65). -/

structure GlobalState where
  proxies : List Proxy
  proxyProviders : List ProxyProvider
  latencyMap : List (String × Nat)
  proxyNodeMap : NodeMap
deriving DecidableEq, Repr

/-- Lines 98–107: the projection written into `proxyNodeMap`. -/

def projectInfo (tp : TaggedProxy) : ProxyInfo :=
  { udp := tp.proxy.udp, xudp := tp.proxy.xudp, type := tp.proxy.type
    latency := tp.proxy.now, latencyTestHistory := tp.proxy.history
    name := tp.proxy.name, tfo := tp.proxy.tfo, provider := tp.provider }

/-- Embedding of `setProxiesInfo` (lines 89–116): both new maps start as
spreads of the previous signal values and get one entry overwritten per
listed node, in list order; the `forEach` writing both maps is split
into one fold per map, which produces the same two final maps. -/

def setProxiesInfo (url : String) (st : GlobalState)
    (ps : List TaggedProxy) : GlobalState :=
  { st with
    proxyNodeMap :=
      ps.foldl (fun m tp => mapSet m tp.proxy.name (projectInfo tp))
        st.proxyNodeMap
    latencyMap :=
      ps.foldl
        (fun m tp => mapSet m tp.proxy.name (getLatencyFromProxy tp.proxy url true))
        st.latencyMap }

/-- JavaScript `Array.prototype.indexOf`: first index, `-1` if absent. -/

def jsIndexOf (l : List String) (s : String) : Int :=
  match l.findIdx? (fun x => x == s) with
  | some i => (i : Int)
  | none => -1

/-- Line 127's filter condition, the truthiness of `proxy.all?.length`. -/

def hasMembers (p : Proxy) : Bool :=
  match p.all with
  | some l => !l.isEmpty
  | none => false

/-- The comparator of lines 128–131 as a total preorder: ascending
position key, where an absent name has key `-1`. -/

def rankLE (key : α → Int) (a b : α) : Prop := key a ≤ key b

instance (key : α → Int) : DecidableRel (rankLE key) :=
  fun a b => Int.decLe (key a) (key b)

instance (key : α → Int) : IsTotal α (rankLE key) :=
  ⟨fun a b => Int.le_total (key a) (key b)⟩

instance (key : α → Int) : IsTrans α (rankLE key) :=
  ⟨fun _ _ _ => Int.le_trans⟩

/-- JavaScript `Array.prototype.sort` under a consistent comparator: the
language specification requires a stable ascending reordering, which is
uniquely determined and realized by insertion sort. -/

def sortRanked (key : α → Int) (l : List α) : List α :=
  List.insertionSort (rankLE key) l

/-- Lines 132–135: the providers surviving the `default`/`Compatible`
filter, in `Object.values` order. -/

def filteredProviders
    (providers : List (String × ProxyProvider)) : List ProxyProvider :=
  (providers.map (fun e => e.2)).filter
    (fun pr => !(pr.name == "default") && !(pr.vehicleType == "Compatible"))

/-- Lines 137–147: `allProxies` — all top-level proxies first, then each
surviving provider's nodes whose name is not a top-level key, tagged
with the provider's name. -/

def mergedNodeList (providers : List (String × ProxyProvider))
    (proxies : List (String × Proxy)) : List TaggedProxy :=
  (proxies.map (fun e => e.2)).map (fun p => TaggedProxy.mk p "")
    ++ (filteredProviders providers).flatMap (fun pr =>
        (pr.proxies.filter (fun p => !(keyIn proxies p.name))).map
          (fun p => TaggedProxy.mk p pr.name))

/-- Line 125: `[...(proxies['GLOBAL'].all ?? []), 'GLOBAL']`. -/

def sortIndexFor (g : Proxy) : List String :=
  g.all.getD [] ++ ["GLOBAL"]

/-- Lines 126–131: `sortedProxies` — top-level proxies with a non-empty
member list, stably sorted by `sortIndex` position. -/

def sortedTopProxies (proxies : List (String × Proxy)) (g : Proxy) :
    List Proxy :=
  sortRanked (fun p => jsIndexOf (sortIndexFor g) p.name)
    ((proxies.map (fun e => e.2)).filter hasMembers)

/-- Embedding of `fetchProxies` (lines 119–154).  The two remote fetches
arrive as `Except` values (`Promise.all` rejects when either call
does); reading `proxies['GLOBAL'].all` with no `GLOBAL` entry throws a
`TypeError`, which also rejects the refresh before anything is
published.  On success the four signals are published in one batch. -/

def fetchProxies (pv : Except String (List (String × ProxyProvider)))
    (px : Except String (List (String × Proxy))) (url : String)
    (st : GlobalState) : Except String GlobalState :=
  match pv, px with
  | .error e, _ => .error e
  | .ok _, .error e => .error e
  | .ok providers, .ok proxies =>
    match mapGet proxies "GLOBAL" with
    | none => .error "TypeError: proxies.GLOBAL is undefined"
    | some g =>
      .ok (setProxiesInfo url
        { st with
          proxies := sortedTopProxies proxies g
          proxyProviders := filteredProviders providers }
        (mergedNodeList providers proxies))

/-- Embedding of `proxyLatencyTest` (lines 180–203): resolve the name to
its terminal node first, then overwrite that node's latency entry with
either the returned delay or `NOT_CONNECTED`; nothing else changes and
no refresh happens.  `none` when the resolver diverges within the
fuel. -/

def proxyLatencyTest (st : GlobalState) (fuel : Nat) (proxyName : String)
    (testResult : Except String Nat) : Option GlobalState :=
  (getNowProxyNodeName st.proxyNodeMap fuel proxyName).map (fun nodeName =>
    match testResult with
    | .ok delay =>
      { st with latencyMap := mapSet st.latencyMap nodeName delay }
    | .error _ =>
      { st with latencyMap := mapSet st.latencyMap nodeName NOT_CONNECTED })

/-- The last element of `ps` named `k`: the map write that wins. -/

def lastNamed (ps : List TaggedProxy) (k : String) : Option TaggedProxy :=
  (ps.filter (fun tp => tp.proxy.name == k)).getLast?

/-- The designated `GLOBAL` group of the witness snapshots. -/

def globalW : Proxy :=
  { name := "GLOBAL", type := "Selector", udp := false, xudp := false
    tfo := false, now := "A", all := some ["A", "B"], history := []
    extra := [] }

/-- A ranked group (`"A"` appears in `GLOBAL.all`). -/

def groupA : Proxy :=
  { name := "A", type := "Selector", udp := false, xudp := false
    tfo := false, now := "A1", all := some ["A1"], history := []
    extra := [] }

/-- A concrete node with no member list. -/

def nodeB : Proxy :=
  { name := "B", type := "Vmess", udp := true, xudp := false, tfo := false
    now := "", all := none, history := [⟨"t", 42⟩], extra := [] }

/-- A group whose name does not occur in the GLOBAL ordering. -/

def groupC : Proxy :=
  { name := "C", type := "URLTest", udp := false, xudp := false
    tfo := false, now := "C1", all := some ["C1"], history := []
    extra := [] }

/-- Top-level snapshot for the sorted-refresh witness. -/

def snapshotW : List (String × Proxy) :=
  [("GLOBAL", globalW), ("A", groupA), ("B", nodeB)]

/-- Top-level snapshot containing the unranked group `C`. -/

def snapshotC5 : List (String × Proxy) :=
  [("GLOBAL", globalW), ("A", groupA), ("B", nodeB), ("C", groupC)]

/-- The pristine store before the first refresh. -/

def stEmpty : GlobalState :=
  { proxies := [], proxyProviders := [], latencyMap := [], proxyNodeMap := [] }

/-- The state published by refreshing `stEmpty` with `snapshotW`. -/

def refreshedW : GlobalState :=
  (fetchProxies (.ok []) (.ok snapshotW) "u" stEmpty).toOption.getD stEmpty

/-- The state published by refreshing `stEmpty` with `snapshotC5`. -/

def refreshedC5 : GlobalState :=
  (fetchProxies (.ok []) (.ok snapshotC5) "u" stEmpty).toOption.getD stEmpty

/-- A stale node-index entry left over from a previous snapshot. -/

def oldInfo : ProxyInfo :=
  { name := "OLD", udp := false, xudp := false, tfo := false
    type := "Vmess", latency := "", latencyTestHistory := [], provider := "" }

/-- A store already holding state for a node named `OLD`. -/

def stWithOld : GlobalState :=
  { proxies := [], proxyProviders := []
    latencyMap := [("OLD", 5)], proxyNodeMap := [("OLD", oldInfo)] }

/-- A fresh snapshot that does not mention `OLD` anywhere. -/

def snapshotNoOld : List (String × Proxy) := [("GLOBAL", globalW)]

/-- The state published by refreshing `stWithOld` with `snapshotNoOld`. -/

def refreshedOld : GlobalState :=
  (fetchProxies (.ok []) (.ok snapshotNoOld) "u" stWithOld).toOption.getD
    stWithOld

/-- The provider-node part of `mergedNodeList` (the flatMap of
lines 139–146). -/

def providerNodePart (providers : List (String × ProxyProvider))
    (proxies : List (String × Proxy)) : List TaggedProxy :=
  (filteredProviders providers).flatMap (fun pr =>
    (pr.proxies.filter (fun p => !(keyIn proxies p.name))).map
      (fun p => TaggedProxy.mk p pr.name))

/-- A provider node that illegitimately reuses the top-level name `B`. -/

def nodeBImpostor : Proxy :=
  { name := "B", type := "Trojan", udp := false, xudp := false, tfo := false
    now := "", all := none, history := [⟨"t9", 999⟩], extra := [] }

/-- A provider node with a fresh name. -/

def nodeP1 : Proxy :=
  { name := "P1", type := "Vless", udp := true, xudp := true, tfo := false
    now := "", all := none, history := [⟨"t3", 30⟩], extra := [] }

/-- A provider supplying both a fresh node and the duplicate of `B`. -/

def providerOne : ProxyProvider :=
  { name := "prov1", vehicleType := "HTTP", proxies := [nodeBImpostor, nodeP1] }

/-- The provider response used by the shadowing witness. -/

def providersW : List (String × ProxyProvider) := [("prov1", providerOne)]

/-- The state published by refreshing with `providersW` and `snapshotW`. -/

def refreshedShadow : GlobalState :=
  (fetchProxies (.ok providersW) (.ok snapshotW) "u" stEmpty).toOption.getD
    stEmpty

/-- A store whose node index is the resolver witness index. -/

def stResolver : GlobalState :=
  { proxies := [], proxyProviders := [], latencyMap := [("Auto", 12)]
    proxyNodeMap := resolveWitnessMap }

/-- The copy of node `X` supplied by the earlier provider. -/

def nodeXearly : Proxy :=
  { name := "X", type := "Vmess", udp := false, xudp := false, tfo := false
    now := "", all := none, history := [⟨"a", 10⟩], extra := [] }

/-- The copy of node `X` supplied by the later provider. -/

def nodeXlate : Proxy :=
  { name := "X", type := "Trojan", udp := true, xudp := false, tfo := false
    now := "", all := none, history := [⟨"b", 20⟩], extra := [] }

/-- The earlier-listed provider. -/

def providerEarly : ProxyProvider :=
  { name := "provA", vehicleType := "HTTP", proxies := [nodeXearly] }

/-- The later-listed provider. -/

def providerLate : ProxyProvider :=
  { name := "provB", vehicleType := "File", proxies := [nodeXlate] }

/-- The provider response with two providers both supplying `X`. -/

def providersDup : List (String × ProxyProvider) :=
  [("provA", providerEarly), ("provB", providerLate)]

/-- The state published by refreshing with the duplicate providers. -/

def refreshedDup : GlobalState :=
  (fetchProxies (.ok providersDup) (.ok snapshotW) "u" stEmpty).toOption.getD
    stEmpty

/-- C1: latency derivation follows the spec's case analysis.  If
`extra[url]` has a last sample with a truthy (nonzero) delay, that delay
is returned regardless of `history` and of the fallback flag; otherwise
(`extra[url]` absent, empty, or its last delay zero) the result is
`NOT_CONNECTED` when `fallbackDefault` is false, and the last `history`
delay (or `NOT_CONNECTED` when `history` is empty) when it is true. -/
theorem getLatencyFromProxy_cases (proxy : Proxy) (url : String) :
    (∀ samples s, mapGet proxy.extra url = some samples →
      samples.getLast? = some s → s.delay ≠ 0 →
      ∀ fb, getLatencyFromProxy proxy url fb = s.delay)
    ∧ ((∀ samples, mapGet proxy.extra url = some samples →
          ∀ s, samples.getLast? = some s → s.delay = 0) →
        getLatencyFromProxy proxy url false = NOT_CONNECTED
        ∧ getLatencyFromProxy proxy url true
            = ((proxy.history.getLast?).map Sample.delay).getD NOT_CONNECTED) := by
  constructor
  · intro samples s hget hlast hpos fb
    simp only [getLatencyFromProxy, hget, hlast, if_pos hpos]
  · intro hzero
    have hfb : ∀ fb, getLatencyFromProxy proxy url fb = fallbackLatency proxy fb := by
      intro fb
      cases hget : mapGet proxy.extra url with
      | none => simp only [getLatencyFromProxy, hget]
      | some samples =>
        cases hlast : samples.getLast? with
        | none => simp only [getLatencyFromProxy, hget, hlast]
        | some s =>
          have : s.delay = 0 := hzero samples hget s hlast
          simp only [getLatencyFromProxy, hget, hlast, this]
          simp
    constructor
    · rw [hfb false]
      simp [fallbackLatency]
    · rw [hfb true]
      cases h : proxy.history.getLast? with
      | none => simp [fallbackLatency, h]
      | some s => simp [fallbackLatency, h]

theorem getLatencyFromProxy_cases_witness :
    getLatencyFromProxy proxyWithExtra "http://test" true = 100
    ∧ getLatencyFromProxy proxyWithZeroExtra "http://test" false = NOT_CONNECTED
    ∧ getLatencyFromProxy proxyWithZeroExtra "http://test" true = 7 := by
  have hzero : ∀ samples, mapGet proxyWithZeroExtra.extra "http://test" = some samples →
      ∀ s, samples.getLast? = some s → s.delay = 0 := by
    intro samples hget s hlast
    have h1 : mapGet proxyWithZeroExtra.extra "http://test" = some [⟨"t1", 0⟩] := by decide
    rw [h1] at hget
    cases hget
    have h2 : ([(⟨"t1", 0⟩ : Sample)]).getLast? = some ⟨"t1", 0⟩ := rfl
    rw [h2] at hlast
    cases hlast
    rfl
  refine ⟨?_, ?_, ?_⟩
  · exact (getLatencyFromProxy_cases proxyWithExtra "http://test").1
      [⟨"t1", 100⟩] ⟨"t1", 100⟩ (by decide) (by decide) (by decide) true
  · exact ((getLatencyFromProxy_cases proxyWithZeroExtra "http://test").2 hzero).1
  · have h := ((getLatencyFromProxy_cases proxyWithZeroExtra "http://test").2 hzero).2
    simpa using h

/-- C2: an unknown name resolves to itself; an indexed node whose `now`
pointer equals its own name resolves to that name in one loop iteration;
and when the pointer of the current node names an unknown node, the walk
returns the current node's name instead of failing. -/
theorem getNowProxyNodeName_terminal_cases (m : NodeMap) (name : String) :
    (mapGet m name = none → ∀ fuel, getNowProxyNodeName m fuel name = some name)
    ∧ (∀ node, mapGet m name = some node → node.latency = node.name →
        name ≠ "" → ∀ fuel, getNowProxyNodeName m (fuel + 1) name = some node.name)
    ∧ (∀ node, mapGet m name = some node → node.latency ≠ "" →
        node.latency ≠ node.name → mapGet m node.latency = none →
        name ≠ "" → ∀ fuel, getNowProxyNodeName m (fuel + 1) name = some node.name) := by
  refine ⟨?_, ?_, ?_⟩
  · intro hmiss fuel
    simp only [getNowProxyNodeName, hmiss]
  · intro node hget hself hname fuel
    have hstep : resolveLoopStep m node = none := by
      simp only [resolveLoopStep, hself]
      simp
    simp [getNowProxyNodeName, hget, resolveLoop, hstep, hname]
  · intro node hget hne hself hmiss hname fuel
    have hstep : resolveLoopStep m node = none := by
      simp only [resolveLoopStep]
      rw [if_neg, hmiss]
      simp [hne, hself]
    simp [getNowProxyNodeName, hget, resolveLoop, hstep, hname]

theorem getNowProxyNodeName_terminal_cases_witness :
    getNowProxyNodeName resolveWitnessMap 3 "nowhere" = some "nowhere"
    ∧ getNowProxyNodeName resolveWitnessMap 1 "Auto" = some "Auto"
    ∧ getNowProxyNodeName resolveWitnessMap 1 "G" = some "G" := by
  have h := getNowProxyNodeName_terminal_cases resolveWitnessMap
  refine ⟨(h "nowhere").1 (by decide) 3, ?_, ?_⟩
  · exact (h "Auto").2.1 selfLoopInfo (by decide) (by decide) (by decide) 0
  · exact (h "G").2.2 danglingInfo (by decide) (by decide) (by decide)
      (by decide) (by decide) 0

theorem resolveLoop_none_invariant (m : NodeMap) (start : ProxyInfo)
    (hdiv : ∀ fuel, resolveLoop m fuel start = none) :
    ∀ i fuel, resolveLoop m fuel (chainIter m start i) = none := by
  intro i
  induction i with
  | zero => exact hdiv
  | succ i ih =>
    intro fuel
    cases hstep : resolveLoopStep m (chainIter m start i) with
    | none =>
      have := ih 1
      simp only [resolveLoop, hstep] at this
      exact absurd this (by simp)
    | some next =>
      have := ih (fuel + 1)
      simp only [resolveLoop, hstep] at this
      simpa [chainIter, hstep] using this

theorem chainIter_step (m : NodeMap) (start : ProxyInfo)
    (hdiv : ∀ fuel, resolveLoop m fuel start = none) :
    ∀ i, resolveLoopStep m (chainIter m start i)
      = some (chainIter m start (i + 1)) := by
  intro i
  cases hstep : resolveLoopStep m (chainIter m start i) with
  | none =>
    have := resolveLoop_none_invariant m start hdiv i 1
    simp only [resolveLoop, hstep] at this
    exact absurd this (by simp)
  | some next =>
    simp [chainIter, hstep]

/-- C3: when every pointer chain in the index eventually stops (reaches
an empty pointer, a self pointer, or an index miss) — the acyclicity
assumption on well-formed engine snapshots — `getNowProxyNodeName`
terminates for every starting name: some fuel makes the fuel-indexed
loop return a result, even though the loop performs no cycle
detection. -/
theorem getNowProxyNodeName_terminates (m : NodeMap)
    (hacyclic : ∀ f : Nat → ProxyInfo,
      ∃ i, resolveLoopStep m (f i) ≠ some (f (i + 1))) :
    ∀ name, ∃ fuel result, getNowProxyNodeName m fuel name = some result := by
  intro name
  cases hget : mapGet m name with
  | none => exact ⟨0, name, by simp only [getNowProxyNodeName, hget]⟩
  | some node =>
    by_cases hname : name = ""
    · subst hname
      exact ⟨0, "", by simp only [getNowProxyNodeName, hget]; simp⟩
    · have hloop : ∃ fuel result, resolveLoop m fuel node = some result := by
        by_contra hcon
        push_neg at hcon
        have hdiv : ∀ fuel, resolveLoop m fuel node = none := by
          intro fuel
          cases hres : resolveLoop m fuel node with
          | none => rfl
          | some r => exact absurd hres (hcon fuel r)
        obtain ⟨i, hi⟩ := hacyclic (chainIter m node)
        exact hi (chainIter_step m node hdiv i)
      obtain ⟨fuel, result, hres⟩ := hloop
      exact ⟨fuel, result, by
        simp only [getNowProxyNodeName, hget]
        rw [if_neg (by simpa using hname)]
        exact hres⟩

theorem mapGet_mem (m : List (String × α)) (k : String) (v : α)
    (h : mapGet m k = some v) : ∃ e ∈ m, e.2 = v := by
  simp only [mapGet, Option.map_eq_some'] at h
  obtain ⟨e, he, hev⟩ := h
  exact ⟨e, List.mem_of_find?_eq_some he, hev⟩

theorem resolveLoopStep_some_mapGet (m : NodeMap) (node next : ProxyInfo)
    (h : resolveLoopStep m node = some next) :
    mapGet m node.latency = some next := by
  by_cases hc : (node.latency == "" || node.latency == node.name) = true
  · rw [resolveLoopStep, if_pos hc] at h
    exact absurd h (by simp)
  · rwa [resolveLoopStep, if_neg hc] at h

theorem getNowProxyNodeName_terminates_witness :
    ∃ fuel result,
      getNowProxyNodeName resolveWitnessMap fuel "G" = some result := by
  have hacyclic : ∀ f : Nat → ProxyInfo,
      ∃ i, resolveLoopStep resolveWitnessMap (f i) ≠ some (f (i + 1)) := by
    intro f
    by_cases h0 : resolveLoopStep resolveWitnessMap (f 0) = some (f 1)
    · refine ⟨1, ?_⟩
      have hmem := resolveLoopStep_some_mapGet _ _ _ h0
      obtain ⟨e, he, hev⟩ := mapGet_mem _ _ _ hmem
      have hcases : e = ("Auto", selfLoopInfo) ∨ e = ("G", danglingInfo) := by
        simpa [resolveWitnessMap] using he
      have hnone : resolveLoopStep resolveWitnessMap (f 1) = none := by
        rcases hcases with h | h <;> rw [← hev, h] <;> decide
      rw [hnone]
      simp
    · exact ⟨0, h0⟩
  exact getNowProxyNodeName_terminates resolveWitnessMap hacyclic "G"

theorem mapGet_mapSet (m : List (String × α)) (k k' : String) (v : α) :
    mapGet (mapSet m k v) k' = if k = k' then some v else mapGet m k' := by
  by_cases h : k = k'
  · simp [mapGet, mapSet, List.find?_cons, h]
  · simp [mapGet, mapSet, List.find?_cons, h]

theorem getLast?_cons_of_ne_nil (a : α) (l : List α) (h : l ≠ []) :
    (a :: l).getLast? = l.getLast? := by
  cases l with
  | nil => exact absurd rfl h
  | cons b l => exact List.getLast?_cons_cons

theorem mapGet_foldl_mapSet (f : TaggedProxy → β) (ps : List TaggedProxy)
    (m0 : List (String × β)) (k : String) :
    mapGet (ps.foldl (fun m tp => mapSet m tp.proxy.name (f tp)) m0) k
      = match lastNamed ps k with
        | some tp => some (f tp)
        | none => mapGet m0 k := by
  induction ps generalizing m0 with
  | nil => simp [lastNamed]
  | cons p ps ih =>
    rw [List.foldl_cons, ih]
    by_cases hp : p.proxy.name = k
    · cases hrest : lastNamed ps k with
      | none =>
        have hfil : ps.filter (fun tp => tp.proxy.name == k) = [] := by
          simpa [lastNamed, List.getLast?_eq_none_iff] using hrest
        have : lastNamed (p :: ps) k = some p := by
          simp [lastNamed, List.filter_cons, hp, hfil]
        rw [this]
        show mapGet (mapSet m0 p.proxy.name (f p)) k = some (f p)
        rw [mapGet_mapSet, if_pos hp]
      | some q =>
        have hfil : ps.filter (fun tp => tp.proxy.name == k) ≠ [] := by
          intro hcon
          rw [lastNamed, hcon] at hrest
          exact Option.noConfusion hrest
        have : lastNamed (p :: ps) k = some q := by
          rw [lastNamed, List.filter_cons, if_pos (by simpa using hp),
            getLast?_cons_of_ne_nil _ _ hfil]
          exact hrest
        rw [this]
    · have : lastNamed (p :: ps) k = lastNamed ps k := by
        simp [lastNamed, List.filter_cons, hp]
      rw [this]
      cases hrest : lastNamed ps k with
      | none => rw [mapGet_mapSet, if_neg hp]
      | some q => rfl

theorem setProxiesInfo_nodeMap (url : String) (st : GlobalState)
    (ps : List TaggedProxy) (k : String) :
    mapGet (setProxiesInfo url st ps).proxyNodeMap k
      = match lastNamed ps k with
        | some tp => some (projectInfo tp)
        | none => mapGet st.proxyNodeMap k :=
  mapGet_foldl_mapSet projectInfo ps st.proxyNodeMap k

theorem setProxiesInfo_latencyMap (url : String) (st : GlobalState)
    (ps : List TaggedProxy) (k : String) :
    mapGet (setProxiesInfo url st ps).latencyMap k
      = match lastNamed ps k with
        | some tp => some (getLatencyFromProxy tp.proxy url true)
        | none => mapGet st.latencyMap k :=
  mapGet_foldl_mapSet (fun tp => getLatencyFromProxy tp.proxy url true) ps
    st.latencyMap k

theorem filter_orderedInsert (key : α → Int) (k : Int) (a : α) (l : List α) :
    (List.orderedInsert (rankLE key) a l).filter (fun x => key x == k)
      = if key a = k then a :: l.filter (fun x => key x == k)
        else l.filter (fun x => key x == k) := by
  induction l with
  | nil =>
    by_cases h : key a = k <;> simp [List.orderedInsert, h]
  | cons b l ih =>
    by_cases hab : rankLE key a b
    · rw [List.orderedInsert_of_le _ _ hab]
      by_cases h : key a = k <;> simp [List.filter_cons, h]
    · have hins : List.orderedInsert (rankLE key) a (b :: l)
          = b :: List.orderedInsert (rankLE key) a l := by
        simp [List.orderedInsert, hab]
      have hba : key b < key a := lt_of_not_le hab
      rw [hins, List.filter_cons]
      by_cases hbk : key b = k
      · have hak : ¬ key a = k := by omega
        rw [if_pos (by simpa using hbk), ih, if_neg hak, if_neg hak,
          List.filter_cons, if_pos (by simpa using hbk)]
      · rw [if_neg (by simpa using hbk), ih]
        by_cases hak : key a = k
        · rw [if_pos hak, if_pos hak, List.filter_cons,
            if_neg (by simpa using hbk)]
        · rw [if_neg hak, if_neg hak, List.filter_cons,
            if_neg (by simpa using hbk)]

theorem filter_sortRanked (key : α → Int) (k : Int) (l : List α) :
    (sortRanked key l).filter (fun x => key x == k)
      = l.filter (fun x => key x == k) := by
  unfold sortRanked
  induction l with
  | nil => rfl
  | cons a l ih =>
    show (List.orderedInsert (rankLE key) a
      (List.insertionSort (rankLE key) l)).filter (fun x => key x == k) = _
    rw [filter_orderedInsert, List.filter_cons]
    by_cases h : key a = k
    · rw [if_pos h, if_pos (by simpa using h), ih]
    · rw [if_neg h, if_neg (by simpa using h), ih]

theorem jsIndexOf_ge_neg_one (l : List String) (s : String) :
    -1 ≤ jsIndexOf l s := by
  unfold jsIndexOf
  cases h : l.findIdx? (fun x => x == s) with
  | none => exact le_refl _
  | some i =>
    have : -1 ≤ (i : Int) := by omega
    exact this

theorem jsIndexOf_of_not_mem (l : List String) (s : String) (h : s ∉ l) :
    jsIndexOf l s = -1 := by
  unfold jsIndexOf
  rw [List.findIdx?_eq_none_iff.mpr]
  intro x hx
  simp only [beq_eq_false_iff_ne, ne_eq]
  intro hxs
  exact h (hxs ▸ hx)

/-- Inversion of a successful refresh into its published pieces. -/
theorem fetchProxies_ok_inv (providers : List (String × ProxyProvider))
    (proxies : List (String × Proxy)) (url : String) (st st' : GlobalState)
    (g : Proxy) (hglobal : mapGet proxies "GLOBAL" = some g)
    (hok : fetchProxies (.ok providers) (.ok proxies) url st = .ok st') :
    st' = setProxiesInfo url
      { st with
        proxies := sortedTopProxies proxies g
        proxyProviders := filteredProviders providers }
      (mergedNodeList providers proxies) := by
  simp only [fetchProxies, hglobal] at hok
  exact (Except.ok.inj hok).symm

/-- C4: after a successful refresh, the published top-level list is the
fetched proxies with a non-empty member list (as a permutation), sorted
ascending by position in the GLOBAL ordering (`GLOBAL` appended last);
names absent from that ordering carry key `-1` and therefore never
appear after a ranked entry; and for every key value the entries
carrying it keep their original encounter order (stability). -/
theorem fetchProxies_publishes_sorted
    (providers : List (String × ProxyProvider))
    (proxies : List (String × Proxy)) (url : String) (st st' : GlobalState)
    (g : Proxy) (hglobal : mapGet proxies "GLOBAL" = some g)
    (hok : fetchProxies (.ok providers) (.ok proxies) url st = .ok st') :
    st'.proxies.Perm ((proxies.map (fun e => e.2)).filter hasMembers)
    ∧ st'.proxies.Pairwise (fun a b =>
        jsIndexOf (sortIndexFor g) a.name ≤ jsIndexOf (sortIndexFor g) b.name)
    ∧ (∀ k : Int, st'.proxies.filter
          (fun p => jsIndexOf (sortIndexFor g) p.name == k)
        = ((proxies.map (fun e => e.2)).filter hasMembers).filter
            (fun p => jsIndexOf (sortIndexFor g) p.name == k))
    ∧ (∀ p ∈ st'.proxies, p.name ∉ sortIndexFor g →
        jsIndexOf (sortIndexFor g) p.name = -1)
    ∧ st'.proxies.Pairwise (fun a b =>
        jsIndexOf (sortIndexFor g) b.name = -1 →
        jsIndexOf (sortIndexFor g) a.name = -1) := by
  have hst : st'.proxies = sortedTopProxies proxies g := by
    rw [fetchProxies_ok_inv providers proxies url st st' g hglobal hok]
    rfl
  rw [hst]
  have hsorted : (sortedTopProxies proxies g).Pairwise (fun a b =>
      jsIndexOf (sortIndexFor g) a.name ≤ jsIndexOf (sortIndexFor g) b.name) :=
    List.sorted_insertionSort
      (rankLE (fun p : Proxy => jsIndexOf (sortIndexFor g) p.name)) _
  refine ⟨?_, hsorted, ?_, ?_, ?_⟩
  · exact List.perm_insertionSort _ _
  · intro k
    exact filter_sortRanked (fun p : Proxy => jsIndexOf (sortIndexFor g) p.name)
      k _
  · intro p _ hnot
    exact jsIndexOf_of_not_mem _ _ hnot
  · refine hsorted.imp ?_
    intro a b hle hb
    have := jsIndexOf_ge_neg_one (sortIndexFor g) a.name
    omega

theorem fetchProxies_publishes_sorted_witness :
    mapGet snapshotW "GLOBAL" = some globalW
    ∧ fetchProxies (.ok []) (.ok snapshotW) "u" stEmpty = .ok refreshedW
    ∧ (refreshedW.proxies.Perm
        ((snapshotW.map (fun e => e.2)).filter hasMembers)
      ∧ refreshedW.proxies.Pairwise (fun a b =>
          jsIndexOf (sortIndexFor globalW) a.name
            ≤ jsIndexOf (sortIndexFor globalW) b.name)
      ∧ (∀ k : Int, refreshedW.proxies.filter
            (fun p => jsIndexOf (sortIndexFor globalW) p.name == k)
          = ((snapshotW.map (fun e => e.2)).filter hasMembers).filter
              (fun p => jsIndexOf (sortIndexFor globalW) p.name == k))
      ∧ (∀ p ∈ refreshedW.proxies, p.name ∉ sortIndexFor globalW →
          jsIndexOf (sortIndexFor globalW) p.name = -1)
      ∧ refreshedW.proxies.Pairwise (fun a b =>
          jsIndexOf (sortIndexFor globalW) b.name = -1 →
          jsIndexOf (sortIndexFor globalW) a.name = -1)) := by
  have h1 : mapGet snapshotW "GLOBAL" = some globalW := by decide
  have h2 : fetchProxies (.ok []) (.ok snapshotW) "u" stEmpty
      = .ok refreshedW := by rfl
  exact ⟨h1, h2,
    fetchProxies_publishes_sorted [] snapshotW "u" stEmpty refreshedW globalW
      h1 h2⟩

/-- C5 counterexample: group `C` has a non-empty member list but is
absent from the GLOBAL ordering; the claim says such a group is
excluded from the published top-level list, yet the refresh publishes
it — first, by the `-1` convention. -/
theorem group_outside_global_not_excluded :
    ("C" ∉ sortIndexFor globalW)
    ∧ hasMembers groupC = true
    ∧ (fetchProxies (.ok []) (.ok snapshotC5) "u" stEmpty).map
        (fun st => st.proxies.map Proxy.name) = .ok ["C", "A", "GLOBAL"] := by
  refine ⟨by decide, by decide, by rfl⟩

/-- C5 amended: a fetched group with a non-empty member list is always
part of the published top-level list, whether or not its name occurs in
the GLOBAL ordering (absent names merely sort first); and every fetched
top-level proxy — member list or not — has an entry in the published
node index. -/
theorem fetchProxies_groups_included
    (providers : List (String × ProxyProvider))
    (proxies : List (String × Proxy)) (url : String) (st st' : GlobalState)
    (g : Proxy) (hglobal : mapGet proxies "GLOBAL" = some g)
    (hok : fetchProxies (.ok providers) (.ok proxies) url st = .ok st') :
    (∀ p ∈ proxies.map (fun e => e.2), hasMembers p = true →
      p ∈ st'.proxies)
    ∧ (∀ p ∈ proxies.map (fun e => e.2),
        ∃ info, mapGet st'.proxyNodeMap p.name = some info) := by
  have hst := fetchProxies_ok_inv providers proxies url st st' g hglobal hok
  constructor
  · intro p hp hm
    have hproxies : st'.proxies = sortedTopProxies proxies g := by
      rw [hst]; rfl
    rw [hproxies]
    exact (List.perm_insertionSort _ _).mem_iff.mpr
      (List.mem_filter.mpr ⟨hp, hm⟩)
  · intro p hp
    have hmem : TaggedProxy.mk p "" ∈ mergedNodeList providers proxies := by
      apply List.mem_append_left
      exact List.mem_map.mpr ⟨p, hp, rfl⟩
    have hfil : (mergedNodeList providers proxies).filter
        (fun tp => tp.proxy.name == p.name) ≠ [] := by
      apply List.ne_nil_of_mem (a := TaggedProxy.mk p "")
      exact List.mem_filter.mpr ⟨hmem, by simp⟩
    have hlast : lastNamed (mergedNodeList providers proxies) p.name ≠ none := by
      rw [lastNamed]
      intro hcon
      exact hfil (List.getLast?_eq_none_iff.mp hcon)
    rw [hst]
    rw [setProxiesInfo_nodeMap]
    cases hl : lastNamed (mergedNodeList providers proxies) p.name with
    | none => exact absurd hl hlast
    | some tp => exact ⟨projectInfo tp, rfl⟩

theorem fetchProxies_groups_included_witness :
    mapGet snapshotC5 "GLOBAL" = some globalW
    ∧ fetchProxies (.ok []) (.ok snapshotC5) "u" stEmpty = .ok refreshedC5
    ∧ groupC ∈ refreshedC5.proxies
    ∧ (∃ info, mapGet refreshedC5.proxyNodeMap "C" = some info) := by
  have h1 : mapGet snapshotC5 "GLOBAL" = some globalW := by decide
  have h2 : fetchProxies (.ok []) (.ok snapshotC5) "u" stEmpty
      = .ok refreshedC5 := by rfl
  have h := fetchProxies_groups_included [] snapshotC5 "u" stEmpty refreshedC5
    globalW h1 h2
  refine ⟨h1, h2, ?_, ?_⟩
  · exact h.1 groupC (by decide) (by decide)
  · have := h.2 groupC (by decide)
    simpa [groupC] using this

/-- C6 counterexample: the claim says a node present in the previous
snapshot but absent from the new fetch has no entry afterward; but
`setProxiesInfo` spreads the previous maps, so after refreshing with a
snapshot that never mentions `OLD`, both published maps still carry the
stale `OLD` entries. -/
theorem stale_entries_retained :
    (∀ e ∈ snapshotNoOld, e.2.name ≠ "OLD")
    ∧ (fetchProxies (.ok []) (.ok snapshotNoOld) "u" stWithOld).map
        (fun st => (mapGet st.proxyNodeMap "OLD", mapGet st.latencyMap "OLD"))
      = .ok (some oldInfo, some 5) := by
  exact ⟨by decide, by rfl⟩

/-- C6 amended: a successful refresh replaces the `proxies` and
`providers` signals wholesale, but the node index and latency map are
merged over their previous values: a name written by the new flattened
node list gets the new projection (its last write), while a name absent
from the new list keeps whatever entry the previous store had. -/
theorem fetchProxies_merges_maps
    (providers : List (String × ProxyProvider))
    (proxies : List (String × Proxy)) (url : String) (st st' : GlobalState)
    (g : Proxy) (hglobal : mapGet proxies "GLOBAL" = some g)
    (hok : fetchProxies (.ok providers) (.ok proxies) url st = .ok st') :
    ∀ k, mapGet st'.proxyNodeMap k
        = (match lastNamed (mergedNodeList providers proxies) k with
           | some tp => some (projectInfo tp)
           | none => mapGet st.proxyNodeMap k)
      ∧ mapGet st'.latencyMap k
        = (match lastNamed (mergedNodeList providers proxies) k with
           | some tp => some (getLatencyFromProxy tp.proxy url true)
           | none => mapGet st.latencyMap k) := by
  have hst := fetchProxies_ok_inv providers proxies url st st' g hglobal hok
  intro k
  rw [hst]
  exact ⟨setProxiesInfo_nodeMap url _ _ k, setProxiesInfo_latencyMap url _ _ k⟩

theorem fetchProxies_merges_maps_witness :
    mapGet snapshotNoOld "GLOBAL" = some globalW
    ∧ fetchProxies (.ok []) (.ok snapshotNoOld) "u" stWithOld
        = .ok refreshedOld
    ∧ mapGet refreshedOld.proxyNodeMap "OLD"
        = (match lastNamed (mergedNodeList [] snapshotNoOld) "OLD" with
           | some tp => some (projectInfo tp)
           | none => mapGet stWithOld.proxyNodeMap "OLD")
    ∧ mapGet refreshedOld.latencyMap "OLD"
        = (match lastNamed (mergedNodeList [] snapshotNoOld) "OLD" with
           | some tp => some (getLatencyFromProxy tp.proxy "u" true)
           | none => mapGet stWithOld.latencyMap "OLD") := by
  have h1 : mapGet snapshotNoOld "GLOBAL" = some globalW := by decide
  have h2 : fetchProxies (.ok []) (.ok snapshotNoOld) "u" stWithOld
      = .ok refreshedOld := by rfl
  have h := fetchProxies_merges_maps [] snapshotNoOld "u" stWithOld
    refreshedOld globalW h1 h2 "OLD"
  exact ⟨h1, h2, h.1, h.2⟩

/-- C7: if either remote fetch fails, the refresh as a whole fails with
that error and publishes nothing: no successful result state exists, so
all four signals keep their previous values. -/
theorem fetchProxies_fetch_error
    (pv : Except String (List (String × ProxyProvider)))
    (px : Except String (List (String × Proxy))) (url : String)
    (st : GlobalState)
    (h : (∃ e, pv = Except.error e) ∨ (∃ e, px = Except.error e)) :
    (∃ e, fetchProxies pv px url st = Except.error e)
    ∧ ∀ st', fetchProxies pv px url st ≠ Except.ok st' := by
  have herr : ∃ e, fetchProxies pv px url st = Except.error e := by
    rcases h with ⟨e, he⟩ | ⟨e, he⟩
    · subst he
      exact ⟨e, rfl⟩
    · subst he
      cases pv with
      | error e2 => exact ⟨e2, rfl⟩
      | ok providers => exact ⟨e, rfl⟩
  refine ⟨herr, ?_⟩
  obtain ⟨e, he⟩ := herr
  intro st' hcon
  rw [he] at hcon
  exact Except.noConfusion hcon

theorem fetchProxies_fetch_error_witness :
    ((∃ e, (Except.error "boom" :
        Except String (List (String × ProxyProvider))) = Except.error e)
      ∨ (∃ e, (Except.ok snapshotW :
        Except String (List (String × Proxy))) = Except.error e))
    ∧ (∃ e, fetchProxies (.error "boom") (.ok snapshotW) "u" stEmpty
        = Except.error e)
    ∧ ∀ st', fetchProxies (.error "boom") (.ok snapshotW) "u" stEmpty
        ≠ Except.ok st' := by
  have h : (∃ e, (Except.error "boom" :
      Except String (List (String × ProxyProvider))) = Except.error e)
      ∨ (∃ e, (Except.ok snapshotW :
        Except String (List (String × Proxy))) = Except.error e) :=
    Or.inl ⟨"boom", rfl⟩
  have hc := fetchProxies_fetch_error (.error "boom") (.ok snapshotW) "u"
    stEmpty h
  exact ⟨h, hc.1, hc.2⟩

theorem lastNamed_append (ps qs : List TaggedProxy) (k : String) :
    lastNamed (ps ++ qs) k = (lastNamed qs k).or (lastNamed ps k) := by
  rw [lastNamed, List.filter_append, List.getLast?_append]
  rfl

theorem lastNamed_eq_none (ps : List TaggedProxy) (k : String)
    (h : ∀ tp ∈ ps, tp.proxy.name ≠ k) : lastNamed ps k = none := by
  rw [lastNamed, List.getLast?_eq_none_iff]
  refine List.filter_eq_nil_iff.mpr ?_
  intro tp htp
  simpa using h tp htp

theorem mergedNodeList_eq (providers : List (String × ProxyProvider))
    (proxies : List (String × Proxy)) :
    mergedNodeList providers proxies
      = (proxies.map (fun e => e.2)).map (fun p => TaggedProxy.mk p "")
        ++ providerNodePart providers proxies := rfl

theorem providerNodePart_no_key (providers : List (String × ProxyProvider))
    (proxies : List (String × Proxy)) (X : String)
    (hkeyX : keyIn proxies X = true) :
    ∀ tp ∈ providerNodePart providers proxies, tp.proxy.name ≠ X := by
  intro tp htp hcon
  obtain ⟨pr, _, htp2⟩ := List.mem_flatMap.mp htp
  obtain ⟨n, hn, rfl⟩ := List.mem_map.mp htp2
  have hpass := (List.mem_filter.mp hn).2
  have hnX : n.name = X := hcon
  rw [hnX, hkeyX] at hpass
  exact Bool.noConfusion hpass

/-- C8: a provider node whose name coincides with a fetched top-level
proxy's name is excluded from the flattened node set (every flattened
element with that name comes from the top-level list and carries the
empty provider tag), and the published node-index and latency entries
for that name are the projection of a top-level proxy of that name, not
of the provider's node. -/
theorem provider_duplicate_shadowed
    (providers : List (String × ProxyProvider))
    (proxies : List (String × Proxy)) (url : String) (st st' : GlobalState)
    (g : Proxy) (X : String) (px : Proxy)
    (hglobal : mapGet proxies "GLOBAL" = some g)
    (hok : fetchProxies (.ok providers) (.ok proxies) url st = .ok st')
    (hkey : mapGet proxies X = some px) (hname : px.name = X) :
    (∀ tp ∈ mergedNodeList providers proxies, tp.proxy.name = X →
      tp.provider = "" ∧ tp.proxy ∈ proxies.map (fun e => e.2))
    ∧ ∃ p, p ∈ proxies.map (fun e => e.2) ∧ p.name = X
      ∧ mapGet st'.proxyNodeMap X = some (projectInfo (TaggedProxy.mk p ""))
      ∧ mapGet st'.latencyMap X
          = some (getLatencyFromProxy p url true) := by
  have hkeyX : keyIn proxies X = true := by
    rw [keyIn, hkey]
    rfl
  have hprov := providerNodePart_no_key providers proxies X hkeyX
  have hvals : px ∈ proxies.map (fun e => e.2) := by
    obtain ⟨e, he, hev⟩ := mapGet_mem proxies X px hkey
    exact List.mem_map.mpr ⟨e, he, hev⟩
  have hfe : (proxies.map (fun e => e.2)).filter (fun p => p.name == X)
      ≠ [] :=
    List.ne_nil_of_mem
      (List.mem_filter.mpr ⟨hvals, by simp [hname]⟩)
  obtain ⟨p, hp⟩ : ∃ p,
      ((proxies.map (fun e => e.2)).filter
        (fun p => p.name == X)).getLast? = some p := by
    cases hc : ((proxies.map (fun e => e.2)).filter
        (fun p => p.name == X)).getLast? with
    | none => exact absurd (List.getLast?_eq_none_iff.mp hc) hfe
    | some p => exact ⟨p, rfl⟩
  have hpmem : p ∈ (proxies.map (fun e => e.2)).filter
      (fun p => p.name == X) :=
    List.mem_of_mem_getLast? (Option.mem_def.mpr hp)
  have hpvals : p ∈ proxies.map (fun e => e.2) :=
    (List.mem_filter.mp hpmem).1
  have hpname : p.name = X := by
    simpa using (List.mem_filter.mp hpmem).2
  have htop : lastNamed
      ((proxies.map (fun e => e.2)).map (fun p => TaggedProxy.mk p "")) X
      = some (TaggedProxy.mk p "") := by
    rw [lastNamed, List.filter_map, List.getLast?_map]
    have hpred : ((fun tp : TaggedProxy => tp.proxy.name == X)
        ∘ (fun p : Proxy => TaggedProxy.mk p ""))
        = (fun p : Proxy => p.name == X) := rfl
    rw [hpred, hp]
    rfl
  have hmerged : lastNamed (mergedNodeList providers proxies) X
      = some (TaggedProxy.mk p "") := by
    rw [mergedNodeList_eq, lastNamed_append,
      lastNamed_eq_none _ _ hprov, Option.none_or, htop]
  have hst := fetchProxies_ok_inv providers proxies url st st' g hglobal hok
  refine ⟨?_, p, hpvals, hpname, ?_, ?_⟩
  · intro tp htp htpX
    rcases List.mem_append.mp htp with htop2 | hprov2
    · obtain ⟨q, hq, rfl⟩ := List.mem_map.mp htop2
      exact ⟨rfl, hq⟩
    · exact absurd htpX (hprov tp hprov2)
  · rw [hst, setProxiesInfo_nodeMap, hmerged]
  · rw [hst, setProxiesInfo_latencyMap, hmerged]

theorem provider_duplicate_shadowed_witness :
    mapGet snapshotW "GLOBAL" = some globalW
    ∧ fetchProxies (.ok providersW) (.ok snapshotW) "u" stEmpty
        = .ok refreshedShadow
    ∧ mapGet snapshotW "B" = some nodeB
    ∧ nodeB.name = "B"
    ∧ (∃ p, p ∈ snapshotW.map (fun e => e.2) ∧ p.name = "B"
        ∧ mapGet refreshedShadow.proxyNodeMap "B"
            = some (projectInfo (TaggedProxy.mk p ""))
        ∧ mapGet refreshedShadow.latencyMap "B"
            = some (getLatencyFromProxy p "u" true)) := by
  have h1 : mapGet snapshotW "GLOBAL" = some globalW := by decide
  have h2 : fetchProxies (.ok providersW) (.ok snapshotW) "u" stEmpty
      = .ok refreshedShadow := by rfl
  have h3 : mapGet snapshotW "B" = some nodeB := by decide
  have h := provider_duplicate_shadowed providersW snapshotW "u" stEmpty
    refreshedShadow globalW "B" nodeB h1 h2 h3 (by decide)
  exact ⟨h1, h2, h3, by decide, h.2⟩

/-- C9: the guarded node latency test resolves the proxy name to its
terminal node and targets that node: on remote success it overwrites
that node's latency entry with the returned delay, on remote failure
with `NOT_CONNECTED` (never leaving the stale value); every other
latency entry and the other three published signals are untouched — in
particular no full refresh happens. -/
theorem proxyLatencyTest_updates (st : GlobalState) (fuel : Nat)
    (proxyName nodeName : String)
    (hres : getNowProxyNodeName st.proxyNodeMap fuel proxyName
      = some nodeName) :
    (∀ delay, ∃ st1,
      proxyLatencyTest st fuel proxyName (.ok delay) = some st1
      ∧ mapGet st1.latencyMap nodeName = some delay
      ∧ (∀ k, k ≠ nodeName → mapGet st1.latencyMap k = mapGet st.latencyMap k)
      ∧ st1.proxies = st.proxies
      ∧ st1.proxyProviders = st.proxyProviders
      ∧ st1.proxyNodeMap = st.proxyNodeMap)
    ∧ (∀ e, ∃ st1,
      proxyLatencyTest st fuel proxyName (.error e) = some st1
      ∧ mapGet st1.latencyMap nodeName = some NOT_CONNECTED
      ∧ (∀ k, k ≠ nodeName → mapGet st1.latencyMap k = mapGet st.latencyMap k)
      ∧ st1.proxies = st.proxies
      ∧ st1.proxyProviders = st.proxyProviders
      ∧ st1.proxyNodeMap = st.proxyNodeMap) := by
  constructor
  · intro delay
    refine ⟨{ st with latencyMap := mapSet st.latencyMap nodeName delay },
      ?_, ?_, ?_, rfl, rfl, rfl⟩
    · rw [proxyLatencyTest, hres]
      rfl
    · show mapGet (mapSet st.latencyMap nodeName delay) nodeName = some delay
      rw [mapGet_mapSet, if_pos rfl]
    · intro k hk
      show mapGet (mapSet st.latencyMap nodeName delay) k
        = mapGet st.latencyMap k
      rw [mapGet_mapSet, if_neg (fun h => hk h.symm)]
  · intro e
    refine ⟨{ st with
        latencyMap := mapSet st.latencyMap nodeName NOT_CONNECTED },
      ?_, ?_, ?_, rfl, rfl, rfl⟩
    · rw [proxyLatencyTest, hres]
      rfl
    · show mapGet (mapSet st.latencyMap nodeName NOT_CONNECTED) nodeName
        = some NOT_CONNECTED
      rw [mapGet_mapSet, if_pos rfl]
    · intro k hk
      show mapGet (mapSet st.latencyMap nodeName NOT_CONNECTED) k
        = mapGet st.latencyMap k
      rw [mapGet_mapSet, if_neg (fun h => hk h.symm)]

theorem proxyLatencyTest_updates_witness :
    getNowProxyNodeName stResolver.proxyNodeMap 1 "Auto" = some "Auto"
    ∧ (∀ delay, ∃ st1,
        proxyLatencyTest stResolver 1 "Auto" (.ok delay) = some st1
        ∧ mapGet st1.latencyMap "Auto" = some delay
        ∧ (∀ k, k ≠ "Auto" →
            mapGet st1.latencyMap k = mapGet stResolver.latencyMap k)
        ∧ st1.proxies = stResolver.proxies
        ∧ st1.proxyProviders = stResolver.proxyProviders
        ∧ st1.proxyNodeMap = stResolver.proxyNodeMap)
    ∧ (∀ e, ∃ st1,
        proxyLatencyTest stResolver 1 "Auto" (.error e) = some st1
        ∧ mapGet st1.latencyMap "Auto" = some NOT_CONNECTED
        ∧ (∀ k, k ≠ "Auto" →
            mapGet st1.latencyMap k = mapGet stResolver.latencyMap k)
        ∧ st1.proxies = stResolver.proxies
        ∧ st1.proxyProviders = stResolver.proxyProviders
        ∧ st1.proxyNodeMap = stResolver.proxyNodeMap) := by
  have hres : getNowProxyNodeName stResolver.proxyNodeMap 1 "Auto"
      = some "Auto" := by decide
  have h := proxyLatencyTest_updates stResolver 1 "Auto" "Auto" hres
  exact ⟨hres, h.1, h.2⟩

/-- C10: when two distinct surviving providers both supply a node named
`X` and `X` is not a top-level key, both copies pass the dedup filter
into the flattened node list, and the published node-index and latency
entries for `X` are the projection of the later-listed provider's last
`X`-named node, tagged with that provider's name. -/
theorem later_provider_wins
    (providers : List (String × ProxyProvider))
    (proxies : List (String × Proxy)) (url : String) (st st' : GlobalState)
    (g : Proxy) (X : String) (l1 l2 : List ProxyProvider)
    (pr1 pr2 : ProxyProvider) (n1 n2 : Proxy)
    (hglobal : mapGet proxies "GLOBAL" = some g)
    (hok : fetchProxies (.ok providers) (.ok proxies) url st = .ok st')
    (hnokey : keyIn proxies X = false)
    (hsplit : filteredProviders providers = l1 ++ pr2 :: l2)
    (hafter : ∀ pr ∈ l2, ∀ n ∈ pr.proxies, n.name ≠ X)
    (hlast2 : (pr2.proxies.filter (fun n => n.name == X)).getLast? = some n2)
    (hpr1 : pr1 ∈ l1) (hn1 : n1 ∈ pr1.proxies) (hn1X : n1.name = X) :
    TaggedProxy.mk n1 pr1.name ∈ mergedNodeList providers proxies
    ∧ TaggedProxy.mk n2 pr2.name ∈ mergedNodeList providers proxies
    ∧ mapGet st'.proxyNodeMap X
        = some (projectInfo (TaggedProxy.mk n2 pr2.name))
    ∧ (projectInfo (TaggedProxy.mk n2 pr2.name)).provider = pr2.name
    ∧ mapGet st'.latencyMap X = some (getLatencyFromProxy n2 url true) := by
  have hpass : ∀ n : Proxy, n.name = X →
      (!(keyIn proxies n.name)) = true := by
    intro n hn
    rw [hn, hnokey]
    rfl
  have hn2mem : n2 ∈ pr2.proxies.filter (fun n => n.name == X) :=
    List.mem_of_mem_getLast? (Option.mem_def.mpr hlast2)
  have hn2 : n2 ∈ pr2.proxies := (List.mem_filter.mp hn2mem).1
  have hn2X : n2.name = X := by
    simpa using (List.mem_filter.mp hn2mem).2
  have hmem1 : TaggedProxy.mk n1 pr1.name
      ∈ mergedNodeList providers proxies := by
    rw [mergedNodeList_eq]
    apply List.mem_append_right
    refine List.mem_flatMap.mpr ⟨pr1, ?_, ?_⟩
    · rw [hsplit]
      exact List.mem_append_left _ hpr1
    · exact List.mem_map.mpr
        ⟨n1, List.mem_filter.mpr ⟨hn1, hpass n1 hn1X⟩, rfl⟩
  have hmem2 : TaggedProxy.mk n2 pr2.name
      ∈ mergedNodeList providers proxies := by
    rw [mergedNodeList_eq]
    apply List.mem_append_right
    refine List.mem_flatMap.mpr ⟨pr2, ?_, ?_⟩
    · rw [hsplit]
      exact List.mem_append_right _ (List.mem_cons_self pr2 l2)
    · exact List.mem_map.mpr
        ⟨n2, List.mem_filter.mpr ⟨hn2, hpass n2 hn2X⟩, rfl⟩
  have hcontrib : lastNamed
      ((pr2.proxies.filter (fun p => !(keyIn proxies p.name))).map
        (fun p => TaggedProxy.mk p pr2.name)) X
      = some (TaggedProxy.mk n2 pr2.name) := by
    rw [lastNamed, List.filter_map, List.getLast?_map]
    have hpred : ((fun tp : TaggedProxy => tp.proxy.name == X)
        ∘ (fun p : Proxy => TaggedProxy.mk p pr2.name))
        = (fun p : Proxy => p.name == X) := rfl
    rw [hpred, List.filter_comm]
    have hall : (pr2.proxies.filter (fun n => n.name == X)).filter
        (fun p => !(keyIn proxies p.name))
        = pr2.proxies.filter (fun n => n.name == X) := by
      refine List.filter_eq_self.mpr ?_
      intro n hn
      exact hpass n (by simpa using (List.mem_filter.mp hn).2)
    rw [hall, hlast2]
    rfl
  have htail : lastNamed (l2.flatMap (fun pr =>
      (pr.proxies.filter (fun p => !(keyIn proxies p.name))).map
        (fun p => TaggedProxy.mk p pr.name))) X = none := by
    refine lastNamed_eq_none _ _ ?_
    intro tp htp hcon
    obtain ⟨pr, hpr, htp2⟩ := List.mem_flatMap.mp htp
    obtain ⟨n, hn, rfl⟩ := List.mem_map.mp htp2
    exact hafter pr hpr n (List.mem_filter.mp hn).1 hcon
  have hprovpart : lastNamed (providerNodePart providers proxies) X
      = some (TaggedProxy.mk n2 pr2.name) := by
    rw [providerNodePart, hsplit, List.flatMap_append, List.flatMap_cons,
      lastNamed_append, lastNamed_append, htail, Option.none_or, hcontrib]
    rfl
  have hmerged : lastNamed (mergedNodeList providers proxies) X
      = some (TaggedProxy.mk n2 pr2.name) := by
    rw [mergedNodeList_eq, lastNamed_append, hprovpart]
    rfl
  have hst := fetchProxies_ok_inv providers proxies url st st' g hglobal hok
  refine ⟨hmem1, hmem2, ?_, rfl, ?_⟩
  · rw [hst, setProxiesInfo_nodeMap, hmerged]
  · rw [hst, setProxiesInfo_latencyMap, hmerged]

theorem later_provider_wins_witness :
    mapGet snapshotW "GLOBAL" = some globalW
    ∧ fetchProxies (.ok providersDup) (.ok snapshotW) "u" stEmpty
        = .ok refreshedDup
    ∧ keyIn snapshotW "X" = false
    ∧ filteredProviders providersDup = [providerEarly] ++ providerLate :: []
    ∧ (providerLate.proxies.filter (fun n => n.name == "X")).getLast?
        = some nodeXlate
    ∧ TaggedProxy.mk nodeXearly providerEarly.name
        ∈ mergedNodeList providersDup snapshotW
    ∧ TaggedProxy.mk nodeXlate providerLate.name
        ∈ mergedNodeList providersDup snapshotW
    ∧ mapGet refreshedDup.proxyNodeMap "X"
        = some (projectInfo (TaggedProxy.mk nodeXlate providerLate.name))
    ∧ (projectInfo (TaggedProxy.mk nodeXlate providerLate.name)).provider
        = providerLate.name
    ∧ mapGet refreshedDup.latencyMap "X"
        = some (getLatencyFromProxy nodeXlate "u" true) := by
  have h1 : mapGet snapshotW "GLOBAL" = some globalW := by decide
  have h2 : fetchProxies (.ok providersDup) (.ok snapshotW) "u" stEmpty
      = .ok refreshedDup := by rfl
  have h3 : keyIn snapshotW "X" = false := by decide
  have h4 : filteredProviders providersDup
      = [providerEarly] ++ providerLate :: [] := by decide
  have h5 : (providerLate.proxies.filter (fun n => n.name == "X")).getLast?
      = some nodeXlate := by decide
  have h := later_provider_wins providersDup snapshotW "u" stEmpty
    refreshedDup globalW "X" [providerEarly] [] providerEarly providerLate
    nodeXearly nodeXlate h1 h2 h3 h4
    (by intro pr hpr; cases hpr) h5
    (by decide) (by decide) (by decide)
  exact ⟨h1, h2, h3, h4, h5, h.1, h.2.1, h.2.2.1, h.2.2.2.1, h.2.2.2.2⟩

end Metacubexd
